import Mathlib

/-!
Shallow embedding of `warehouse-loader.py` (NHSX covid chest imaging database
warehouse loader) and proofs about the claims of its specification.

Conventions of the embedding:
* Python strings are modelled as Lean `String`; keys are ASCII in every use
  relevant here (object-store keys, patient ids, dates), so ASCII-only
  case conversion (`Char.toUpper` / `Char.toLower`) models Python's
  `str.upper` / `str.lower`, and `Char.isDigit` models the regex class `\d`.
* Machine integers do not occur: Python integers are unbounded, and the
  64-bit words inside SHA-512 are modelled as `Nat` reduced `% 2 ^ 64`.
* The object store (boto3/S3) is external to the repository; it is modelled
  by oracles passed as explicit arguments (an existence oracle
  `String → Bool`, a load-result oracle for error modelling, and the parsed
  listing response for folder discovery).
* Generator functions (`yield`) are modelled as functions returning the list
  of yielded items, in order.
-/

/-! ### SHA-512 (FIPS 180-4), as used by Python's `hashlib.sha512`

`patient_in_training_set` (warehouse-loader.py lines 99-116) computes
`int(hashlib.sha512(patient_id.upper().encode("utf-8")).hexdigest(), 16) % 100`.
The hash itself is the standard SHA-512; it is embedded here executably over
`Nat`, with bytes as naturals below 256 and 64-bit words as naturals reduced
modulo `2 ^ 64`. -/

/-- `2 ^ 64`, the modulus for 64-bit words. -/
def M64 : Nat := 2 ^ 64

/-- Rotate a 64-bit word right by `n` bits. -/
def rotr (n x : Nat) : Nat := ((x >>> n) ||| (x <<< (64 - n))) % M64

/-- Shift a 64-bit word right by `n` bits. -/
def shr (n x : Nat) : Nat := x >>> n

/-- Bitwise complement on 64-bit words. -/
def bnot64 (x : Nat) : Nat := x ^^^ (M64 - 1)

/-- SHA-512 `Ch` function. -/
def ch (x y z : Nat) : Nat := (x &&& y) ^^^ (bnot64 x &&& z)

/-- SHA-512 `Maj` function. -/
def maj (x y z : Nat) : Nat := (x &&& y) ^^^ (x &&& z) ^^^ (y &&& z)

/-- SHA-512 `Σ₀`. -/
def bigS0 (x : Nat) : Nat := rotr 28 x ^^^ rotr 34 x ^^^ rotr 39 x

/-- SHA-512 `Σ₁`. -/
def bigS1 (x : Nat) : Nat := rotr 14 x ^^^ rotr 18 x ^^^ rotr 41 x

/-- SHA-512 `σ₀`. -/
def smallS0 (x : Nat) : Nat := rotr 1 x ^^^ rotr 8 x ^^^ shr 7 x

/-- SHA-512 `σ₁`. -/
def smallS1 (x : Nat) : Nat := rotr 19 x ^^^ rotr 61 x ^^^ shr 6 x

/-- The 80 SHA-512 round constants. -/
def sha512K : List Nat := [
  0x428A2F98D728AE22, 0x7137449123EF65CD, 0xB5C0FBCFEC4D3B2F, 0xE9B5DBA58189DBBC, 0x3956C25BF348B538,
  0x59F111F1B605D019, 0x923F82A4AF194F9B, 0xAB1C5ED5DA6D8118, 0xD807AA98A3030242, 0x12835B0145706FBE,
  0x243185BE4EE4B28C, 0x550C7DC3D5FFB4E2, 0x72BE5D74F27B896F, 0x80DEB1FE3B1696B1, 0x9BDC06A725C71235,
  0xC19BF174CF692694, 0xE49B69C19EF14AD2, 0xEFBE4786384F25E3, 0x0FC19DC68B8CD5B5, 0x240CA1CC77AC9C65,
  0x2DE92C6F592B0275, 0x4A7484AA6EA6E483, 0x5CB0A9DCBD41FBD4, 0x76F988DA831153B5, 0x983E5152EE66DFAB,
  0xA831C66D2DB43210, 0xB00327C898FB213F, 0xBF597FC7BEEF0EE4, 0xC6E00BF33DA88FC2, 0xD5A79147930AA725,
  0x06CA6351E003826F, 0x142929670A0E6E70, 0x27B70A8546D22FFC, 0x2E1B21385C26C926, 0x4D2C6DFC5AC42AED,
  0x53380D139D95B3DF, 0x650A73548BAF63DE, 0x766A0ABB3C77B2A8, 0x81C2C92E47EDAEE6, 0x92722C851482353B,
  0xA2BFE8A14CF10364, 0xA81A664BBC423001, 0xC24B8B70D0F89791, 0xC76C51A30654BE30, 0xD192E819D6EF5218,
  0xD69906245565A910, 0xF40E35855771202A, 0x106AA07032BBD1B8, 0x19A4C116B8D2D0C8, 0x1E376C085141AB53,
  0x2748774CDF8EEB99, 0x34B0BCB5E19B48A8, 0x391C0CB3C5C95A63, 0x4ED8AA4AE3418ACB, 0x5B9CCA4F7763E373,
  0x682E6FF3D6B2B8A3, 0x748F82EE5DEFB2FC, 0x78A5636F43172F60, 0x84C87814A1F0AB72, 0x8CC702081A6439EC,
  0x90BEFFFA23631E28, 0xA4506CEBDE82BDE9, 0xBEF9A3F7B2C67915, 0xC67178F2E372532B, 0xCA273ECEEA26619C,
  0xD186B8C721C0C207, 0xEADA7DD6CDE0EB1E, 0xF57D4F7FEE6ED178, 0x06F067AA72176FBA, 0x0A637DC5A2C898A6,
  0x113F9804BEF90DAE, 0x1B710B35131C471B, 0x28DB77F523047D84, 0x32CAAB7B40C72493, 0x3C9EBE0A15C9BEBC,
  0x431D67C49C100D4C, 0x4CC5D4BECB3E42B6, 0x597F299CFC657E2A, 0x5FCB6FAB3AD6FAEC, 0x6C44198C4A475817]

/-- The SHA-512 initial hash value `H⁽⁰⁾`. -/
def sha512H0 : List Nat := [
  0x6A09E667F3BCC908, 0xBB67AE8584CAA73B, 0x3C6EF372FE94F82B,
  0xA54FF53A5F1D36F1, 0x510E527FADE682D1, 0x9B05688C2B3E6C1F,
  0x1F83D9ABFB41BD6B, 0x5BE0CD19137E2179]

/-- Read a list of bytes as a big-endian unsigned integer. -/
def bytesToNatBE (bs : List Nat) : Nat := bs.foldl (fun a b => a * 256 + b) 0

/-- The `n` big-endian bytes of `x` (most significant first). -/
def natToBytesBE (n x : Nat) : List Nat :=
  (List.range n).map (fun i => (x >>> (8 * (n - 1 - i))) % 256)

/-- Read 8 bytes as one big-endian 64-bit message word. -/
def bytesToWordBE (bs : List Nat) : Nat := bs.foldl (fun a b => a * 256 + b) 0

/-- Extend the 16 message words of one block to the 80-entry schedule `W`. -/
def msgSchedule (block : List Nat) : Array Nat :=
  (List.range 64).foldl
    (fun w i =>
      let t := i + 16
      w.push ((smallS1 (w.getD (t - 2) 0) + w.getD (t - 7) 0 +
        smallS0 (w.getD (t - 15) 0) + w.getD (t - 16) 0) % M64))
    block.toArray

/-- The eight working variables of the SHA-512 compression loop. -/
structure Hash8 where
  a : Nat
  b : Nat
  c : Nat
  d : Nat
  e : Nat
  f : Nat
  g : Nat
  h : Nat

/-- One round of the SHA-512 compression function. -/
def sha512Round (kt wt : Nat) (s : Hash8) : Hash8 :=
  let t1 := (s.h + bigS1 s.e + ch s.e s.f s.g + kt + wt) % M64
  let t2 := (bigS0 s.a + maj s.a s.b s.c) % M64
  { a := (t1 + t2) % M64, b := s.a, c := s.b, d := s.c,
    e := (s.d + t1) % M64, f := s.e, g := s.f, h := s.g }

/-- SHA-512 compression of one 16-word block into the running hash value. -/
def sha512Compress (H : List Nat) (block : List Nat) : List Nat :=
  let w := msgSchedule block
  let s0 : Hash8 :=
    ⟨H.getD 0 0, H.getD 1 0, H.getD 2 0, H.getD 3 0,
     H.getD 4 0, H.getD 5 0, H.getD 6 0, H.getD 7 0⟩
  let s := (List.range 80).foldl
    (fun s t => sha512Round (sha512K.getD t 0) (w.getD t 0) s) s0
  [(s.a + H.getD 0 0) % M64, (s.b + H.getD 1 0) % M64,
   (s.c + H.getD 2 0) % M64, (s.d + H.getD 3 0) % M64,
   (s.e + H.getD 4 0) % M64, (s.f + H.getD 5 0) % M64,
   (s.g + H.getD 6 0) % M64, (s.h + H.getD 7 0) % M64]

/-- SHA-512 padding: append `0x80`, zero bytes up to 112 mod 128, then the
bit length as a 16-byte big-endian integer. -/
def sha512Pad (msg : List Nat) : List Nat :=
  msg ++ 0x80 :: (List.replicate ((239 - msg.length % 128) % 128) 0 ++
    natToBytesBE 16 (8 * msg.length))

/-- SHA-512 of a byte list, as the 64-byte digest. -/
def sha512Bytes (msg : List Nat) : List Nat :=
  let padded := sha512Pad msg
  let blocks := (List.range (padded.length / 128)).map
    (fun i => (padded.drop (128 * i)).take 128)
  let toWords := fun (b : List Nat) =>
    (List.range 16).map (fun j => bytesToWordBE ((b.drop (8 * j)).take 8))
  ((blocks.map toWords).foldl sha512Compress sha512H0).foldl
    (fun acc w => acc ++ natToBytesBE 8 w) []

/-- The lowercase hex character of a value below 16, as in Python's
`hexdigest`. -/
def hexChar (d : Nat) : Char := if d < 10 then Char.ofNat (48 + d) else Char.ofNat (87 + d)

/-- The value of a lowercase hex character, as read by `int(s, 16)`. -/
def hexVal (c : Char) : Nat := if 97 ≤ c.toNat then c.toNat - 87 else c.toNat - 48

/-- `bytes.hex()` / `hexdigest()`: two lowercase hex characters per byte. -/
def hexdigest (bs : List Nat) : List Char :=
  bs.foldr (fun b cs => hexChar (b / 16) :: hexChar (b % 16) :: cs) []

/-- `int(s, 16)` on a string of hex characters. -/
def parseHex (cs : List Char) : Nat := cs.foldl (fun a c => 16 * a + hexVal c) 0

/-- UTF-8 encoding of one character (Python `str.encode("utf-8")`,
per character). -/
def utf8Char (c : Char) : List Nat :=
  let v := c.toNat
  if v < 0x80 then [v]
  else if v < 0x800 then [0xC0 ||| (v >>> 6), 0x80 ||| (v &&& 0x3F)]
  else if v < 0x10000 then
    [0xE0 ||| (v >>> 12), 0x80 ||| ((v >>> 6) &&& 0x3F), 0x80 ||| (v &&& 0x3F)]
  else
    [0xF0 ||| (v >>> 18), 0x80 ||| ((v >>> 12) &&& 0x3F),
     0x80 ||| ((v >>> 6) &&& 0x3F), 0x80 ||| (v &&& 0x3F)]

/-- UTF-8 encoding of a string (`str.encode("utf-8")`). -/
def utf8Encode (s : String) : List Nat := s.toList.foldl (fun acc c => acc ++ utf8Char c) []

/-- Python `str.upper()`, restricted to ASCII (every string this program
uppercases is an ASCII patient identifier). -/
def pyUpper (s : String) : String := String.mk (s.toList.map Char.toUpper)

/-- warehouse-loader.py line 24: `TRAINING_PERCENTAGE = 60`. -/
def TRAINING_PERCENTAGE : Nat := 60

/-- warehouse-loader.py lines 99-116, `patient_in_training_set`:
`int(hashlib.sha512(patient_id.upper().encode("utf-8")).hexdigest(), 16) % 100
 < training_percent`.
The Python parameter defaults to ` TRAINING_PERCENTAGE`; callers inside the
file pass no explicit percentage, so the embedding's call sites pass
` TRAINING_PERCENTAGE` explicitly. -/
def patient_in_training_set (patient_id : String) (training_percent : Nat) : Bool :=
  decide (parseHex (hexdigest (sha512Bytes (utf8Encode (pyUpper patient_id)))) % 100
    < training_percent)

/-! ### Paths (Python `pathlib.Path` on POSIX keys)

The loader uses `Path(key).name`, `.stem` and `.suffix` on object-store keys.
`PurePosixPath` drops empty and `.` components; `.suffix` is `name[i:]` for
`i` the index of the last dot when `0 < i < len(name) - 1`, else empty, and
`.stem` is the name with a nonempty suffix removed. -/

/-- Split a character list on a separator, keeping empty pieces, as Python's
`str.split(sep)` (and Lean's `String.splitOn`, re-implemented here by
structural recursion so that it evaluates inside the kernel). -/
def splitOnChar (sep : Char) : List Char → List (List Char)
  | [] => [[]]
  | c :: rest =>
    match splitOnChar sep rest with
    | r :: rs => if c == sep then [] :: r :: rs else (c :: r) :: rs
    | [] => [[]]

/-- The components of `PurePosixPath(s)`: split on `/`, dropping empty and
`.` components (the root marker of an absolute path is irrelevant to every
use in this program and is not retained). -/
def pathParts (s : String) : List String :=
  ((splitOnChar '/' s.toList).map String.mk).filter (fun c => !(c == "") && !(c == "."))

/-- `Path(s).name`: the last component, or `""` if there is none. -/
def pathName (s : String) : String := (pathParts s).getLastD ""

/-- `Path(s).suffix`. -/
def pathSuffix (s : String) : String :=
  let cs := (pathName s).toList
  match cs.reverse.findIdx? (fun c => c == '.') with
  | some j => if 1 ≤ j && j + 1 < cs.length
      then String.mk (cs.drop (cs.length - 1 - j)) else ""
  | none => ""

/-- `Path(s).stem`. -/
def pathStem (s : String) : String :=
  let cs := (pathName s).toList
  match cs.reverse.findIdx? (fun c => c == '.') with
  | some j => if 1 ≤ j && j + 1 < cs.length
      then String.mk (cs.take (cs.length - 1 - j)) else String.mk cs
  | none => String.mk cs

/-- Python `str.lower()`, restricted to ASCII (file extensions here). -/
def pyLower (s : String) : String := String.mk (s.toList.map Char.toLower)

/-! ### KeyCache (warehouse-loader.py lines 36-57)

`self.store` is a Python `set` holding the values ever added. `add` inserts
the key and `Path(key).name`, both `str` values. `exists` with
`fullpath=True` tests `Path(key) in self.store`: the probe is a `Path`
object, and in Python a `Path` never compares equal to a `str`. The model
keeps that type distinction: a stored value is either a `str` or a `Path`
(identified by its components), and equality is Python `==`, which is never
true across the two constructors. The set is modelled as a list whose
membership test is the Python `in`. -/

/-- A value as stored in / probed against the cache set: a Python `str` or a
Python `Path` (compared by its normalized components). -/
inductive PyVal where
  | str (s : String)
  | path (parts : List String)
deriving DecidableEq

/-- warehouse-loader.py lines 36-41: the cache's `self.store` set. -/
structure KeyCache where
  store : List PyVal
deriving DecidableEq

/-- Lines 43-48, `KeyCache.add`: insert the full key and `Path(key).name`,
both as `str` values. -/
def KeyCache.add (c : KeyCache) (key : String) : KeyCache :=
  { store := PyVal.str key :: PyVal.str (pathName key) :: c.store }

/-- Lines 50-57, `KeyCache.exists` (named `existsKey` here because `exists`
is reserved in Lean): with `fullpath` it tests `Path(key) in self.store`,
otherwise `Path(key).name in self.store`. The Python parameter defaults to
`False`; every embedding call site passes the flag explicitly. -/
def KeyCache.existsKey (c : KeyCache) (key : String) (fullpath : Bool) : Bool :=
  if fullpath then c.store.contains (PyVal.path (pathParts key))
  else c.store.contains (PyVal.str (pathName key))

/-! ### Helper functions (warehouse-loader.py lines 63-96) -/

/-- The outcome of `bucket.Object(key).load()`: success, or a
`botocore.exceptions.ClientError` carrying a response error code. The store
is external; a run of `object_exists` is modelled against an oracle
`load : String → LoadResult` describing what the store answers per key. -/
inductive LoadResult where
  | ok
  | clientError (code : String)
deriving DecidableEq

/-- The error raised by the embedded `object_exists` on a store error other
than not-found (the `raise ClientError` of line 78). -/
inductive StoreErr where
  | clientError
deriving DecidableEq

/-- Lines 63-80, `object_exists`: `load()` the object; on success return
`True`; on a `ClientError` with response code `"404"` return `False`;
on any other `ClientError` raise. -/
def object_exists (load : String → LoadResult) (key : String) : Except StoreErr Bool :=
  match load key with
  | .ok => .ok true
  | .clientError code => if code = "404" then .ok false else .error .clientError

/-- The character class `[\d-]` of the date regex (ASCII keys). -/
def isDateChar (c : Char) : Bool := c.isDigit || c == '-'

/-- Lines 83-96, `get_date_from_key`:
`re.match(rf"^{prefix}(?P<date>[\d-]*)/.*", key)`, returning the `date`
group or `None`. Since `/` is not in `[\d-]`, the regex matches exactly when
`key` starts with the (regex-metacharacter-free) prefix followed by a
possibly empty run of `[\d-]` characters whose first non-member character is
`/`; the group is that run, which may be the empty string. -/
def get_date_from_key (key pfx : String) : Option String :=
  let kcs := key.toList
  let pcs := pfx.toList
  if pcs.isPrefixOf kcs then
    let rest := kcs.drop pcs.length
    let run := rest.takeWhile isDateChar
    match rest.drop run.length with
    | c :: _ => if c == '/' then some (String.mk run) else none
    | [] => none
  else none

/-- Python truthiness of `get_date_from_key`'s result, as tested by
`if date:` — `None` and the empty string are falsy. -/
def pyTruthy : Option String → Bool
  | none => false
  | some s => !(s == "")

/-! ### Constants (warehouse-loader.py lines 20-31) -/

/-- Line 20. -/
def RAW_PREFIX : String := "raw/"

/-- Line 21. -/
def TRAINING_PREFIX : String := "training/"

/-- Line 22. -/
def VALIDATION_PREFIX : String := "validation/"

/-- Lines 26-31: the modality code table; `MODALITY.get(code, "unknown")` is
modelled by `(MODALITY.lookup code).getD "unknown"`. -/
def MODALITY : List (String × String) :=
  [("DX", "x-ray"), ("CR", "x-ray"), ("MR", "mri"), ("CT", "ct")]

/-! ### Transformation steps (warehouse-loader.py lines 184-328) -/

/-- The fields of the decoded DICOM dataset that `process_image` reads
(`image_data["PatientID"].value` and `image_data["Modality"].value`). The
decoder (pydicom) is external; the decoded values are inputs of the model. -/
structure DicomData where
  PatientID : String
  Modality : String
deriving DecidableEq

/-- A value yielded by `process_image` / `process_patient_data`: either
`("copy", obj, new_key)` (the source object identified by its key) or
`("metadata", metadata_key, image_data)`. -/
inductive EmitTask where
  | copy (obj_key : String) (new_key : String)
  | metadata (metadata_key : String) (image_data : DicomData)
deriving DecidableEq

/-- Line 250: `MODALITY.get(image_data["Modality"].value, "unknown")`. -/
def image_type_of (modality : String) : String :=
  (MODALITY.lookup modality).getD "unknown"

/-- Lines 251-252: `training_set = patient_in_training_set(patient_id)` and
`prefix = TRAINING_PREFIX if training_set else VALIDATION_PREFIX` (the same
two lines recur at 321-322); the Python call uses the default percentage. -/
def split_pfx (patient_id : String) : String :=
  if patient_in_training_set patient_id TRAINING_PERCENTAGE
  then TRAINING_PREFIX else VALIDATION_PREFIX

/-- Line 257: `f"{prefix}{image_type}/{patient_id}/{date}/{Path(obj.key).name}"`. -/
def image_new_key (pfx image_type patient_id date name : String) : String :=
  pfx ++ image_type ++ "/" ++ patient_id ++ "/" ++ date ++ "/" ++ name

/-- Lines 258-260:
`f"{prefix}{image_type}-metadata/{patient_id}/{date}/{image_uuid}.json"`. -/
def image_metadata_key (pfx image_type patient_id date image_uuid : String) : String :=
  pfx ++ image_type ++ "-metadata/" ++ patient_id ++ "/" ++ date ++ "/" ++
    image_uuid ++ ".json"

/-- Line 325: `f"{prefix}data/{patient_id}/{date}/{outcome}.json"`. -/
def patient_data_new_key (pfx patient_id date outcome : String) : String :=
  pfx ++ "data/" ++ patient_id ++ "/" ++ date ++ "/" ++ outcome ++ ".json"

/-- Lines 190-194, `extract_raw_folders`: `result.get("CommonPrefixes")` is
`None` when the listing response has no `CommonPrefixes` entry (the raw area
has no subfolders), and the `for` loop then raises a `TypeError` instead of
yielding nothing. The input models the parsed response: `none` for a
response without the entry, `some ps` for one listing the subfolder
prefixes. -/
inductive IterError where
  | noneNotIterable
deriving DecidableEq

/-- Lines 184-194, `extract_raw_folders` as a function of the listing
response. -/
def extract_raw_folders (commonPrefixes : Option (List String)) :
    Except IterError (List String) :=
  match commonPrefixes with
  | none => .error .noneNotIterable
  | some subfolders => .ok subfolders

/-- Lines 209-265, `process_image`, as the list of yielded tasks.
`store` is the existence oracle behind `object_exists` (lines 262 and 264
consult the live store; the oracle gives the error-free answer), `obj_key`
is `obj.key`, and `image_data` the decoded DICOM fields. -/
def process_image (keycache : KeyCache) (store : String → Bool) (obj_key : String)
    (image_data : DicomData) : List EmitTask :=
  if pyLower (pathSuffix obj_key) ≠ ".dcm" then []
  else
    let image_in_cache := keycache.existsKey obj_key false
    let image_uuid := pathStem obj_key
    let metadata_in_cache := keycache.existsKey (image_uuid ++ ".json") false
    if metadata_in_cache && image_in_cache then []
    else
      let patient_id := image_data.PatientID
      let image_type := image_type_of image_data.Modality
      let pfx := split_pfx patient_id
      let date := get_date_from_key obj_key RAW_PREFIX
      if pyTruthy date then
        let d := date.getD ""
        let new_key := image_new_key pfx image_type patient_id d (pathName obj_key)
        let metadata_key := image_metadata_key pfx image_type patient_id d image_uuid
        (if !store new_key then [EmitTask.copy obj_key new_key] else []) ++
          (if !store metadata_key then [EmitTask.metadata metadata_key image_data] else [])
      else []

/-- Line 317: `re.match("^(?P<patient_id>.*)_(?P<outcome>data|status)$", stem)`.
The greedy `.*` anchored at `$` matches exactly when the stem ends in
`_data` or `_status` (the two suffixes are mutually exclusive), binding
`patient_id` to everything before that final suffix. Keys contain no
newline characters, so `.` and `$` subtleties with `\n` do not arise. -/
def stem_match (stem : String) : Option (String × String) :=
  let cs := stem.toList
  if ("_data".toList).isSuffixOf cs then
    some (String.mk (cs.take (cs.length - 5)), "data")
  else if ("_status".toList).isSuffixOf cs then
    some (String.mk (cs.take (cs.length - 7)), "status")
  else none

/-- Lines 300-327, `process_patient_data`, as the list of yielded tasks. -/
def process_patient_data (store : String → Bool) (obj_key : String) : List EmitTask :=
  if pyLower (pathSuffix obj_key) ≠ ".json" then []
  else
    match stem_match (pathStem obj_key) with
    | some (patient_id, outcome) =>
      let pfx := split_pfx patient_id
      let date := get_date_from_key obj_key RAW_PREFIX
      if pyTruthy date then
        let new_key := patient_data_new_key pfx patient_id (date.getD "") outcome
        if !store new_key then [EmitTask.copy obj_key new_key] else []
      else []
    | none => []

/-! ### Metadata redaction (warehouse-loader.py lines 119-163)

`scrub_dicom` converts the DICOM dataset to a nested JSON-style structure of
dicts, lists and scalars (`to_json_dict`, external) and then nulls fields in
place. The tree after that conversion is modelled as `JTree`; `inplace_nullify`
becomes a pure transformer returning the updated tree. -/

/-- A JSON scalar as produced by `to_json_dict`. -/
inductive JVal where
  | null
  | str (s : String)
  | num (n : Int)
  | boolean (b : Bool)
deriving DecidableEq

/-- A nested dict/list/scalar tree. -/
inductive JTree where
  | val (v : JVal)
  | dict (entries : List (String × JTree))
  | arr (items : List JTree)

mutual

/-- Lines 119-140, `inplace_nullify d key`: recurse into lists; in a dict,
set the value of each entry whose key equals `key` to `None`, and recurse
into values that are dicts or lists. The Python recursion on the overwritten
old value mutates an object no longer reachable from the tree, so the pure
result is as below. -/
def inplace_nullify : JTree → String → JTree
  | .val v, _ => .val v
  | .arr items, key => .arr (nullifyItems items key)
  | .dict entries, key => .dict (nullifyEntries entries key)

/-- Line 131: the recursion over the elements of a list. -/
def nullifyItems : List JTree → String → List JTree
  | [], _ => []
  | t :: ts, key => inplace_nullify t key :: nullifyItems ts key

/-- Lines 134-140: the loop over the items of a dict. -/
def nullifyEntries : List (String × JTree) → String → List (String × JTree)
  | [], _ => []
  | (k, v) :: rest, key =>
      (k, if k = key then JTree.val JVal.null else inplace_nullify v key) ::
        nullifyEntries rest key

end

/-- Lines 143-163, `scrub_dicom`, from the `to_json_dict` output onwards:
null every `"InlineBinary"` and then every `"00283010"` entry. -/
def scrub_dicom (out : JTree) : JTree :=
  inplace_nullify (inplace_nullify out "InlineBinary") "00283010"

/-- A step into a tree: a dict key or a list index. -/
abbrev PathStep := String ⊕ Nat

/-- Look up the subtree at a path of dict-key / list-index steps (dict lookup
is by first matching key, as in a Python dict whose keys are unique). -/
def getPath : JTree → List PathStep → Option JTree
  | t, [] => some t
  | .dict entries, .inl k :: p =>
      match entries.lookup k with
      | some v => getPath v p
      | none => none
  | .arr items, .inr i :: p =>
      match items.get? i with
      | some v => getPath v p
      | none => none
  | _, _ :: _ => none

/-! ## Supporting lemmas -/

/-- Undoing one hex character. -/
lemma hexVal_hexChar {d : Nat} (h : d < 16) : hexVal (hexChar d) = d := by
  interval_cases d <;> decide

/-- Folding the hex digits of a byte list is folding the bytes. -/
lemma foldl_hexdigest (bs : List Nat) (h : ∀ b ∈ bs, b < 256) :
    ∀ acc : Nat,
      (hexdigest bs).foldl (fun a c => 16 * a + hexVal c) acc =
        bs.foldl (fun a b => a * 256 + b) acc := by
  induction bs with
  | nil => intro acc; rfl
  | cons b bs ih =>
    intro acc
    have hb : b < 256 := h b (List.mem_cons_self b bs)
    have h' : ∀ b' ∈ bs, b' < 256 := fun b' hb' => h b' (List.mem_cons_of_mem b hb')
    show (hexChar (b / 16) :: hexChar (b % 16) :: hexdigest bs).foldl
        (fun a c => 16 * a + hexVal c) acc = _
    rw [List.foldl_cons, List.foldl_cons, ih h']
    have h16 : b / 16 < 16 := Nat.div_lt_of_lt_mul (by omega)
    rw [hexVal_hexChar h16, hexVal_hexChar (Nat.mod_lt b (by norm_num))]
    have : 16 * (16 * acc + b / 16) + b % 16 = acc * 256 + b := by omega
    rw [this, List.foldl_cons]

/-- `int(digest.hex(), 16)` is the digest read as a big-endian integer. -/
lemma parseHex_hexdigest (bs : List Nat) (h : ∀ b ∈ bs, b < 256) :
    parseHex (hexdigest bs) = bytesToNatBE bs :=
  foldl_hexdigest bs h 0

/-- Every entry of `natToBytesBE` is a byte. -/
lemma natToBytesBE_lt (n x : Nat) : ∀ b ∈ natToBytesBE n x, b < 256 := by
  intro b hb
  simp only [natToBytesBE, List.mem_map, List.mem_range] at hb
  obtain ⟨i, _, rfl⟩ := hb
  exact Nat.mod_lt _ (by norm_num)

/-- Serializing words to bytes only produces bytes. -/
lemma foldl_words_bytes_lt (ws : List Nat) :
    ∀ acc : List Nat, (∀ b ∈ acc, b < 256) →
      ∀ b ∈ ws.foldl (fun acc w => acc ++ natToBytesBE 8 w) acc, b < 256 := by
  induction ws with
  | nil => intro acc hacc; exact hacc
  | cons w ws ih =>
    intro acc hacc b hb
    refine ih _ ?_ b hb
    intro b' hb'
    rcases List.mem_append.mp hb' with h | h
    · exact hacc _ h
    · exact natToBytesBE_lt _ _ _ h

/-- Every entry of a SHA-512 digest is a byte. -/
lemma sha512Bytes_lt (msg : List Nat) : ∀ b ∈ sha512Bytes msg, b < 256 := by
  intro b hb
  unfold sha512Bytes at hb
  exact foldl_words_bytes_lt _ _ (by simp) b hb

/-! ## Claims -/

/-- C2 (claim): for every patient identifier `p` and training percentage
`t`, `patient_in_training_set` returns `True` iff the SHA-512 digest of the
UTF-8 encoding of `p` uppercased, read as an unsigned integer, reduced
modulo 100, is strictly less than `t`; and `t` defaults to 60
(` TRAINING_PERCENTAGE`, which every internal call site passes). Since the
embedding is a pure function of `p` and `t`, the same `p` always gets the
same partition for a fixed `t`. -/
theorem patient_in_training_set_spec (p : String) (t : Nat) :
    (patient_in_training_set p t = true ↔
      bytesToNatBE (sha512Bytes (utf8Encode (pyUpper p))) % 100 < t)
    ∧ TRAINING_PERCENTAGE = 60 := by
  constructor
  · unfold patient_in_training_set
    rw [parseHex_hexdigest _ (sha512Bytes_lt _)]
    exact decide_eq_true_iff
  · rfl

/-- C8 (claim): with training percentage 0 every patient is assigned to
Validation, and with 100 every patient is assigned to Training, because the
hash reduced modulo 100 lies in `0..99`. -/
theorem patient_in_training_set_extremes (p : String) :
    patient_in_training_set p 0 = false ∧ patient_in_training_set p 100 = true := by
  unfold patient_in_training_set
  exact ⟨decide_eq_false (Nat.not_lt_zero _),
    decide_eq_true (Nat.mod_lt _ (by norm_num))⟩

/-- C6 (claim): `object_exists` returns `True` when the object loads,
`False` exactly on a "404" (not found) client error, and on a store error
with any other code it raises a `ClientError` which propagates to the
caller. -/
theorem object_exists_semantics (load : String → LoadResult) (key : String) :
    (load key = LoadResult.ok → object_exists load key = Except.ok true)
    ∧ (load key = LoadResult.clientError "404" →
        object_exists load key = Except.ok false)
    ∧ (∀ code, code ≠ "404" → load key = LoadResult.clientError code →
        object_exists load key = Except.error StoreErr.clientError) := by
  refine ⟨fun h => ?_, fun h => ?_, fun code hc h => ?_⟩
  · simp [object_exists, h]
  · simp [object_exists, h]
  · simp [object_exists, h, hc]

/-- Witness for C6: the three behaviours at concrete oracles. -/
theorem object_exists_semantics_witness :
    object_exists (fun _ => LoadResult.ok) "k" = Except.ok true
    ∧ object_exists (fun _ => LoadResult.clientError "404") "k" = Except.ok false
    ∧ object_exists (fun _ => LoadResult.clientError "500") "k" =
        Except.error StoreErr.clientError :=
  ⟨(object_exists_semantics (fun _ => LoadResult.ok) "k").1 rfl,
   (object_exists_semantics (fun _ => LoadResult.clientError "404") "k").2.1 rfl,
   (object_exists_semantics (fun _ => LoadResult.clientError "500") "k").2.2
     "500" (by decide) rfl⟩

/-- C10 (claim): when the listing response carries no `CommonPrefixes`
entry (no date subfolders under `raw/`), `extract_raw_folders` raises
(iterating over `None`) instead of yielding an empty sequence; with an
entry present it yields exactly the listed prefixes. -/
theorem extract_raw_folders_none_raises :
    extract_raw_folders none = Except.error IterError.noneNotIterable
    ∧ ∀ ps : List String, extract_raw_folders (some ps) = Except.ok ps :=
  ⟨rfl, fun _ => rfl⟩

/-- C3 (code evaluated at the failing input): after `add("a/b.txt")`, the
full-path lookup `exists("a/b.txt", fullpath=True)` returns `False` — the
probe `Path("a/b.txt")` is a `Path` object and never equals the `str`
entries held by the set — while the default filename lookup finds the added
basename and an unrelated filename is correctly missed. -/
theorem keycache_fullpath_lookup_fails :
    ((KeyCache.mk []).add "a/b.txt").existsKey "a/b.txt" true = false
    ∧ ((KeyCache.mk []).add "a/b.txt").existsKey "b.txt" false = true
    ∧ ((KeyCache.mk []).add "a/b.txt").existsKey "nomatch.txt" false = false := by
  decide

/-- A list is a `isPrefixOf` of itself followed by anything. -/
lemma isPrefixOf_append {α} [BEq α] [LawfulBEq α] (xs ys : List α) :
    xs.isPrefixOf (xs ++ ys) = true := by
  induction xs with
  | nil => simp [List.isPrefixOf]
  | cons x xs ih => simp [List.isPrefixOf, ih]

/-- `takeWhile` runs through a block that satisfies the predicate. -/
lemma takeWhile_append_of_all {α} (p : α → Bool) {xs : List α} (ys : List α)
    (h : ∀ c ∈ xs, p c = true) :
    (xs ++ ys).takeWhile p = xs ++ ys.takeWhile p := by
  induction xs with
  | nil => rfl
  | cons x xs ih =>
    have hx : p x = true := h x (List.mem_cons_self x xs)
    simp only [List.cons_append, List.takeWhile_cons, hx, if_true]
    rw [ih (fun c hc => h c (List.mem_cons_of_mem x hc))]

/-- When some element of the first block fails the predicate, the character
after the `takeWhile` run is an element of that block failing it. -/
lemma dropRun_of_not_all {α} (p : α → Bool) {xs : List α} (ys : List α)
    (h : ¬ ∀ c ∈ xs, p c = true) :
    ∃ c cs, (xs ++ ys).drop ((xs ++ ys).takeWhile p).length = c :: cs
      ∧ c ∈ xs ∧ p c = false := by
  induction xs with
  | nil => exact absurd (by simp) h
  | cons x xs ih =>
    by_cases hx : p x = true
    · have h' : ¬ ∀ c ∈ xs, p c = true := by
        intro hall
        refine h ?_
        intro c hc
        rcases List.mem_cons.mp hc with rfl | hc
        · exact hx
        · exact hall c hc
      obtain ⟨c, cs, hdrop, hmem, hpc⟩ := ih h'
      refine ⟨c, cs, ?_, List.mem_cons_of_mem x hmem, hpc⟩
      simpa [List.cons_append, List.takeWhile_cons, hx] using hdrop
    · refine ⟨x, xs ++ ys, ?_, List.mem_cons_self x xs, by simpa using hx⟩
      simp [List.cons_append, List.takeWhile_cons, hx]

/-- `get_date_from_key` on a raw key whose first segment after `raw/` is
`seg`: the date comes out verbatim when `seg` is all `[\d-]`, and there is
no match otherwise. -/
lemma get_date_from_key_append (seg rest : String) (hseg : '/' ∉ seg.toList) :
    get_date_from_key ("raw/" ++ seg ++ "/" ++ rest) RAW_PREFIX =
      if ∀ c ∈ seg.toList, isDateChar c = true then some seg else none := by
  have h1 : ("raw/" ++ seg ++ "/" ++ rest).toList =
      RAW_PREFIX.toList ++ (seg.toList ++ '/' :: rest.toList) := by
    show ("raw/" ++ seg ++ "/" ++ rest).data = _
    simp [String.data_append]
    rfl
  unfold get_date_from_key
  simp only [h1, isPrefixOf_append, if_true, List.drop_left]
  by_cases hall : ∀ c ∈ seg.toList, isDateChar c = true
  · rw [if_pos hall, takeWhile_append_of_all _ _ hall]
    have hslash : isDateChar '/' = false := by decide
    simp only [List.takeWhile_cons, hslash, Bool.false_eq_true, if_false,
      List.append_nil]
    rw [List.drop_left]
    simp
  · rw [if_neg hall]
    obtain ⟨c, cs, hdrop, hmem, hpc⟩ := dropRun_of_not_all isDateChar _ hall
    rw [hdrop]
    have hc : ¬ (c == '/') = true := by
      intro hcc
      exact hseg (by simpa using beq_iff_eq.mp hcc ▸ hmem)
    simp [hc]

/-- C9 (claim): for a raw key `raw/<seg>/<rest>`, date extraction yields a
usable (truthy) date iff `seg` is non-empty and consists solely of `[\d-]`
characters; when `seg` is all `[\d-]` the extracted date is exactly `seg`,
verbatim — no calendar validation and no reformatting occur. -/
theorem get_date_segment_characterization (seg rest : String)
    (hseg : '/' ∉ seg.toList) :
    (pyTruthy (get_date_from_key ("raw/" ++ seg ++ "/" ++ rest) RAW_PREFIX) = true
      ↔ seg ≠ "" ∧ ∀ c ∈ seg.toList, isDateChar c = true)
    ∧ ((∀ c ∈ seg.toList, isDateChar c = true) →
        get_date_from_key ("raw/" ++ seg ++ "/" ++ rest) RAW_PREFIX = some seg) := by
  rw [get_date_from_key_append seg rest hseg]
  constructor
  · by_cases hall : ∀ c ∈ seg.toList, isDateChar c = true
    · rw [if_pos hall]
      simp only [pyTruthy, Bool.not_eq_eq_eq_not, Bool.not_true,
        beq_eq_false_iff_ne, ne_eq]
      exact ⟨fun hne => ⟨hne, hall⟩, fun hand => hand.1⟩
    · rw [if_neg hall]
      simp only [pyTruthy, Bool.false_eq_true, false_iff, not_and]
      exact fun _ => hall
  · intro hall
    rw [if_pos hall]

/-- Witness for C9: the non-calendar segment `99-99` is extracted verbatim. -/
theorem get_date_segment_characterization_witness :
    '/' ∉ "99-99".toList
    ∧ get_date_from_key ("raw/" ++ "99-99" ++ "/" ++ "studyA/x.dcm") RAW_PREFIX =
        some "99-99" :=
  ⟨by decide,
   (get_date_segment_characterization "99-99" "studyA/x.dcm" (by decide)).2 (by decide)⟩

/-- C7 (claim): a raw object without an extractable (truthy) date segment is
skipped silently by both processing steps: no task is emitted — hence no
store-mutating call is made, since copies and uploads happen only in the
downstream consumers of emitted tasks — and no error is raised (the
embedding is total). -/
theorem no_date_skips (c : KeyCache) (store : String → Bool) (k k2 : String)
    (img : DicomData)
    (h : pyTruthy (get_date_from_key k RAW_PREFIX) = false)
    (h2 : pyTruthy (get_date_from_key k2 RAW_PREFIX) = false) :
    process_image c store k img = [] ∧ process_patient_data store k2 = [] := by
  constructor
  · unfold process_image
    dsimp only []
    split
    · rfl
    · split
      · rfl
      · simp [h]
  · unfold process_patient_data
    dsimp only []
    split
    · rfl
    · split
      · simp [h2]
      · rfl

/-- Witness for C7: keys with no date segment after `raw/` produce no task. -/
theorem no_date_skips_witness :
    pyTruthy (get_date_from_key "raw/studyA/img123.dcm" RAW_PREFIX) = false
    ∧ process_image (KeyCache.mk []) (fun _ => false) "raw/studyA/img123.dcm"
        ⟨"P001", "DX"⟩ = []
    ∧ process_patient_data (fun _ => false) "raw/nodate/P001_data.json" = [] :=
  ⟨by decide,
   (no_date_skips (KeyCache.mk []) (fun _ => false) "raw/studyA/img123.dcm"
      "raw/nodate/P001_data.json" ⟨"P001", "DX"⟩ (by decide) (by decide)).1,
   (no_date_skips (KeyCache.mk []) (fun _ => false) "raw/studyA/img123.dcm"
      "raw/nodate/P001_data.json" ⟨"P001", "DX"⟩ (by decide) (by decide)).2⟩

/-- C1 (claim): for an imaging object that reaches the routing step (DICOM
extension, not short-circuited by the cache, truthy date), if the live
existence check is negative for both the data key and the metadata key then
`process_image` emits exactly the copy task for the data key followed by
the metadata task for the metadata key; if it is positive for both, it
emits no task — so re-running ingestion over a fully published object makes
no store-mutating call for it. -/
theorem process_image_existence_gate
    (c : KeyCache) (store : String → Bool) (k : String) (img : DicomData) (d : String)
    (hsuf : pyLower (pathSuffix k) = ".dcm")
    (hcache : (c.existsKey (pathStem k ++ ".json") false && c.existsKey k false) = false)
    (hdate : get_date_from_key k RAW_PREFIX = some d)
    (hne : d ≠ "") :
    (store (image_new_key (split_pfx img.PatientID) (image_type_of img.Modality)
        img.PatientID d (pathName k)) = false →
      store (image_metadata_key (split_pfx img.PatientID) (image_type_of img.Modality)
        img.PatientID d (pathStem k)) = false →
      process_image c store k img =
        [EmitTask.copy k (image_new_key (split_pfx img.PatientID)
            (image_type_of img.Modality) img.PatientID d (pathName k)),
         EmitTask.metadata (image_metadata_key (split_pfx img.PatientID)
            (image_type_of img.Modality) img.PatientID d (pathStem k)) img])
    ∧ (store (image_new_key (split_pfx img.PatientID) (image_type_of img.Modality)
        img.PatientID d (pathName k)) = true →
      store (image_metadata_key (split_pfx img.PatientID) (image_type_of img.Modality)
        img.PatientID d (pathStem k)) = true →
      process_image c store k img = []) := by
  constructor <;> intro h1 h2 <;>
    simp [process_image, hsuf, hcache, hdate, pyTruthy, hne, h1, h2]

set_option maxRecDepth 400000 in
/-- Witness for C1: against an empty store, a fresh raw image yields its
copy task and metadata task, in that order. -/
theorem process_image_existence_gate_witness :
    pyLower (pathSuffix "raw/2022-01-05/studyA/img123.dcm") = ".dcm"
    ∧ process_image (KeyCache.mk []) (fun _ => false)
        "raw/2022-01-05/studyA/img123.dcm" ⟨"P001", "DX"⟩ =
        [EmitTask.copy "raw/2022-01-05/studyA/img123.dcm"
            "validation/x-ray/P001/2022-01-05/img123.dcm",
         EmitTask.metadata "validation/x-ray-metadata/P001/2022-01-05/img123.json"
            ⟨"P001", "DX"⟩] :=
  ⟨by decide,
   (process_image_existence_gate (KeyCache.mk []) (fun _ => false)
      "raw/2022-01-05/studyA/img123.dcm" ⟨"P001", "DX"⟩ "2022-01-05"
      (by decide) (by decide) (by decide) (by decide)).1 rfl rfl⟩

set_option maxRecDepth 400000 in
/-- C5 (counterexample): the spec's example asserts that patient `P001`
hashes into the Training bucket, but `patient_in_training_set` places
`P001` in Validation: its SHA-512 hash modulo 100 is 72, which is not below
the default 60. -/
theorem routing_P001_not_training :
    ¬ patient_in_training_set "P001" TRAINING_PERCENTAGE = true := by decide

set_option maxRecDepth 400000 in
/-- C5 (amended): `P001` is assigned to Validation, and the example keys
route to the `validation/` prefix: the raw image
`raw/2022-01-05/studyA/img123.dcm` with patient `P001`, modality `DX` gets
data key `validation/x-ray/P001/2022-01-05/img123.dcm` and metadata key
`validation/x-ray-metadata/P001/2022-01-05/img123.json`, and the clinical
file `raw/2022-01-05/studyA/P001_data.json` gets data key
`validation/data/P001/2022-01-05/data.json`. -/
theorem routing_P001_validation :
    patient_in_training_set "P001" TRAINING_PERCENTAGE = false
    ∧ process_image (KeyCache.mk []) (fun _ => false)
        "raw/2022-01-05/studyA/img123.dcm" ⟨"P001", "DX"⟩ =
        [EmitTask.copy "raw/2022-01-05/studyA/img123.dcm"
            "validation/x-ray/P001/2022-01-05/img123.dcm",
         EmitTask.metadata "validation/x-ray-metadata/P001/2022-01-05/img123.json"
            ⟨"P001", "DX"⟩]
    ∧ process_patient_data (fun _ => false) "raw/2022-01-05/studyA/P001_data.json" =
        [EmitTask.copy "raw/2022-01-05/studyA/P001_data.json"
            "validation/data/P001/2022-01-05/data.json"] := by
  refine ⟨by decide, by decide, by decide⟩

/-- Looking up the sensitive key in nullified entries always finds null. -/
lemma lookup_nullifyEntries_key (key : String) (es : List (String × JTree)) :
    (nullifyEntries es key).lookup key =
      (es.lookup key).map (fun _ => JTree.val JVal.null) := by
  induction es with
  | nil => rfl
  | cons e es ih =>
    obtain ⟨k', v⟩ := e
    by_cases hk' : k' = key
    · subst hk'
      simp [nullifyEntries, List.lookup]
    · have hb : (key == k') = false := beq_eq_false_iff_ne.mpr (fun h => hk' h.symm)
      simp [nullifyEntries, List.lookup, hk', hb, ih]

/-- Looking up a non-sensitive key in nullified entries finds the nullified
value. -/
lemma lookup_nullifyEntries_ne (key k : String) (es : List (String × JTree))
    (hk : k ≠ key) :
    (nullifyEntries es key).lookup k =
      (es.lookup k).map (fun v => inplace_nullify v key) := by
  induction es with
  | nil => rfl
  | cons e es ih =>
    obtain ⟨k', v⟩ := e
    by_cases hkk : k = k'
    · subst hkk
      simp [nullifyEntries, List.lookup, hk]
    · have hb : (k == k') = false := beq_eq_false_iff_ne.mpr hkk
      have hbk : (k == key) = false := beq_eq_false_iff_ne.mpr hk
      by_cases hk' : k' = key <;>
        simp [nullifyEntries, List.lookup, hb, hbk, hk', ih]

/-- Indexing nullified list items. -/
lemma nullifyItems_get (key : String) (ts : List JTree) (i : Nat) :
    (nullifyItems ts key).get? i = (ts.get? i).map (fun t => inplace_nullify t key) := by
  induction ts generalizing i with
  | nil => cases i <;> rfl
  | cons t ts ih =>
    cases i with
    | zero => rfl
    | succ n => simpa [nullifyItems] using ih n

/-- C4 (claim): for every nested tree and every sensitive field name,
`inplace_nullify` (as `scrub_dicom` applies it for `"InlineBinary"` and
`"00283010"`) nulls the value of every mapping entry whose key equals the
field name, at every depth, including inside mappings nested in sequences
(first conjunct: any path `p` avoiding the field name, extended by one
final step through the field name, now reaches null), and leaves every
other leaf entry of the tree unchanged (second conjunct: any leaf reached
by a path avoiding the field name is intact). -/
theorem inplace_nullify_redacts (key : String) :
    ∀ (p : List PathStep) (t : JTree), Sum.inl key ∉ p →
      (∀ u, getPath t (p ++ [Sum.inl key]) = some u →
        getPath (inplace_nullify t key) (p ++ [Sum.inl key]) = some (JTree.val JVal.null))
      ∧ (∀ v, getPath t p = some (JTree.val v) →
        getPath (inplace_nullify t key) p = some (JTree.val v)) := by
  intro p
  induction p with
  | nil =>
    intro t _
    constructor
    · intro u hu
      cases t with
      | val v => simp [getPath] at hu
      | arr items => simp [getPath] at hu
      | dict es =>
        simp only [List.nil_append, getPath, inplace_nullify] at hu ⊢
        rw [lookup_nullifyEntries_key]
        cases hlk : es.lookup key with
        | none => rw [hlk] at hu; simp at hu
        | some w => simp [getPath]
    · intro v hv
      simp only [getPath, Option.some.injEq] at hv
      subst hv
      simp [inplace_nullify, getPath]
  | cons s p ih =>
    intro t hs
    have hs1 : s ≠ Sum.inl key := fun h => hs (h ▸ List.mem_cons_self s p)
    have hs2 : Sum.inl key ∉ p := fun h => hs (List.mem_cons_of_mem s h)
    constructor
    · intro u hu
      cases t with
      | val v => simp [getPath] at hu
      | dict es =>
        cases s with
        | inl k =>
          have hk : k ≠ key := fun h => hs1 (by rw [h])
          simp only [List.cons_append, getPath, inplace_nullify] at hu ⊢
          rw [lookup_nullifyEntries_ne key k es hk]
          cases hlk : es.lookup k with
          | none => rw [hlk] at hu; simp at hu
          | some w =>
            rw [hlk] at hu
            simpa using (ih w hs2).1 u hu
        | inr i => simp [getPath] at hu
      | arr items =>
        cases s with
        | inl k => simp [getPath] at hu
        | inr i =>
          simp only [List.cons_append, getPath, inplace_nullify] at hu ⊢
          rw [nullifyItems_get]
          cases hg : items.get? i with
          | none => rw [hg] at hu; simp at hu
          | some w =>
            rw [hg] at hu
            simpa using (ih w hs2).1 u hu
    · intro v hv
      cases t with
      | val w => simp [getPath] at hv
      | dict es =>
        cases s with
        | inl k =>
          have hk : k ≠ key := fun h => hs1 (by rw [h])
          simp only [getPath, inplace_nullify] at hv ⊢
          rw [lookup_nullifyEntries_ne key k es hk]
          cases hlk : es.lookup k with
          | none => rw [hlk] at hv; simp at hv
          | some w =>
            rw [hlk] at hv
            simpa using (ih w hs2).2 v hv
        | inr i => simp [getPath] at hv
      | arr items =>
        cases s with
        | inl k => simp [getPath] at hv
        | inr i =>
          simp only [getPath, inplace_nullify] at hv ⊢
          rw [nullifyItems_get]
          cases hg : items.get? i with
          | none => rw [hg] at hv; simp at hv
          | some w =>
            rw [hg] at hv
            simpa using (ih w hs2).2 v hv

/-- Witness for C4: in a tree holding `InlineBinary` both at top level and
inside a mapping nested in a list, the top-level occurrence is nulled and a
sibling leaf in the nested mapping is untouched. -/
theorem inplace_nullify_redacts_witness :
    getPath (inplace_nullify (JTree.dict
        [("InlineBinary", JTree.val (JVal.str "B64")),
         ("a", JTree.arr [JTree.dict
            [("InlineBinary", JTree.val (JVal.num 1)),
             ("b", JTree.val (JVal.num 2))]])]) "InlineBinary")
      [Sum.inl "InlineBinary"] = some (JTree.val JVal.null)
    ∧ getPath (inplace_nullify (JTree.dict
        [("InlineBinary", JTree.val (JVal.str "B64")),
         ("a", JTree.arr [JTree.dict
            [("InlineBinary", JTree.val (JVal.num 1)),
             ("b", JTree.val (JVal.num 2))]])]) "InlineBinary")
      [Sum.inl "a", Sum.inr 0, Sum.inl "b"] = some (JTree.val (JVal.num 2)) :=
  ⟨(inplace_nullify_redacts "InlineBinary" [] _ (List.not_mem_nil _)).1
      (JTree.val (JVal.str "B64")) rfl,
   (inplace_nullify_redacts "InlineBinary" [Sum.inl "a", Sum.inr 0, Sum.inl "b"] _
      (by simp)).2 (JVal.num 2) rfl⟩
